import Mathlib

/-!
A shallow embedding of the YOLOv3 data pipeline (`utils/datasets.py`):
the geometric transforms (`horisontal_flip`, `pad_to_square`, `resize`),
the `ListDataset` single-item loader and its batch collator `collate_fn`,
and the inference-only `ImageFolder` loader.

Modelling choices: real values are carried as `ℚ`; a tensor image is a
nested list (channels × rows × pixels); the ambient random draws
(ColorJitter, the flip coin, `random.choice`) are explicit oracle
parameters; the file system is an abstract map from paths to decoded
images and to parsed label files; fallible Python code is rendered with
`Except String`.
-/

namespace Yolo3

/-- An image tensor: a list of channels, each channel a list of rows,
each row a list of pixel values (layout C × H × W, as in the source's
`img.shape` unpacking `_, h, w`). -/
abbrev Image := List (List (List ℚ))

/-- Height of an image tensor: the row count of its first channel. -/
def Image.height (img : Image) : ℕ := (img.headD []).length

/-- Width of an image tensor: the pixel count of the first row of its
first channel. -/
def Image.width (img : Image) : ℕ := ((img.headD []).headD []).length

/-- Channel count of an image tensor. -/
def Image.channels (img : Image) : ℕ := img.length

/-- A well-formed (rectangular) image tensor: every channel has the same
row count and every row the same pixel count. -/
abbrev WFImage (img : Image) : Prop :=
  ∀ ch ∈ img, ch.length = Image.height img ∧ ∀ row ∈ ch, row.length = Image.width img

/-- One row of a target tensor (`targets` in the source): the six columns
`[batch_index, class_id, center_x, center_y, width, height]`. -/
structure TargetRow where
  batchIndex : ℚ
  cls : ℚ
  cx : ℚ
  cy : ℚ
  w : ℚ
  h : ℚ
deriving DecidableEq, Repr

/-- The per-row effect of `targets[:, 2] = 1 - targets[:, 2]`. -/
def flipTargetRow (r : TargetRow) : TargetRow := { r with cx := 1 - r.cx }

/-- `torch.flip(images, [-1])`: reverse the last (width) axis. -/
def torchFlipLast (img : Image) : Image := img.map (fun ch => ch.map List.reverse)

/-- `horisontal_flip(images, targets)` from the source: flips the image
along the width axis and rewrites column 2 (`center_x`) of the targets to
`1 - center_x`.  When `targets` is `None` (the missing-label marker) the
subscript assignment `targets[:, 2] = ...` raises; this is rendered as an
`Except.error`. -/
def horisontal_flip (images : Image) (targets : Option (List TargetRow)) :
    Except String (Image × Option (List TargetRow)) :=
  match targets with
  | none => .error ("TypeError: NoneType object is not subscriptable")
  | some rows => .ok (torchFlipLast images, some (rows.map flipTargetRow))

/-- Pad one row on the left and right with `left`/`right` copies of the
fill value (the width-axis part of `F.pad`). -/
def padRow (left right : ℕ) (v : ℚ) (row : List ℚ) : List ℚ :=
  List.replicate left v ++ row ++ List.replicate right v

/-- `F.pad(img, [left, right, top, bottom], mode='constant', value=v)` on
a C × H × W tensor: each channel gains `top`/`bottom` full rows of the
fill value and each existing row gains `left`/`right` fill pixels. -/
def Fpad (img : Image) (pad : List ℕ) (v : ℚ) : Image :=
  let l := pad.getD 0 0
  let r := pad.getD 1 0
  let t := pad.getD 2 0
  let b := pad.getD 3 0
  let newW := l + Image.width img + r
  img.map (fun ch =>
    List.replicate t (List.replicate newW v) ++
      ch.map (padRow l r v) ++
      List.replicate b (List.replicate newW v))

/-- The local `difference = abs(h - w)` of `pad_to_square`, as a natural
number. -/
def difference (img : Image) : ℕ :=
  max (Image.height img) (Image.width img)
    - min (Image.height img) (Image.width img)

/-- `pad_to_square(img, pad_value)` from the source: computes
`difference = |h - w|`; pads top/bottom when `h ≤ w`, else left/right,
splitting `difference` as `difference // 2` and the remainder; returns
the padded image together with the pad list `[left, right, top, bottom]`. -/
def pad_to_square (img : Image) (pad_value : ℚ) : Image × List ℕ :=
  let pad : List ℕ :=
    if Image.height img ≤ Image.width img then
      [0, 0, difference img / 2, difference img - difference img / 2]
    else [difference img / 2, difference img - difference img / 2, 0, 0]
  (Fpad img pad pad_value, pad)

/-- `resize(image, size)` wraps `F.interpolate(..., size, mode='bilinear',
align_corners=True)`, an external tensor-library primitive (out of scope
per the spec); it is modelled by its shape contract — a `size × size`
output per channel — with the interpolated values abstracted as a
coordinate sampling of the input. -/
def resize (image : Image) (size : ℕ) : Image :=
  image.map (fun ch =>
    (List.range size).map (fun y =>
      (List.range size).map (fun x =>
        ((ch.getD (y * ch.length / size) []).getD
          (x * ((ch.headD []).length) / size) 0))))

/-- One parsed row of a label file: `class_id cx cy w h`, the five
whitespace-separated numeric fields loaded by
`np.loadtxt(label_path).reshape(-1, 5)`. -/
structure Box where
  cls : ℚ
  cx : ℚ
  cy : ℚ
  bw : ℚ
  bh : ℚ
deriving DecidableEq, Repr

/-- The abstract file system: decoding an image file
(`Image.open(...).convert('RGB')` plus `ToTensor`) and reading a label
file (`os.path.exists` + `np.loadtxt`); `none` means the file is absent
(or fails to decode). -/
structure FS where
  images : String → Option Image
  labels : String → Option (List Box)

/-- The fields of `ListDataset` fixed at construction, plus the mutable
`batch_count` that `collate_fn` updates. -/
structure ListDataset where
  img_files : List String
  img_size : ℕ
  augment : Bool
  multiscale : Bool
  normalized_labels : Bool
  batch_count : ℕ

/-- `ListDataset.__init__`: stores the image list and configuration and
starts the batch counter at 0 (`self.batch_count = 0`). -/
def ListDataset.init (img_files : List String) (img_size : ℕ)
    (augment multiscale normalized_labels : Bool) : ListDataset :=
  { img_files := img_files, img_size := img_size, augment := augment,
    multiscale := multiscale, normalized_labels := normalized_labels,
    batch_count := 0 }

/-- The label-path derivation applied to each image path:
`path.replace('images','labels').replace('.png','.txt').replace('.jpg','.txt').replace('JPEGImages','labels')`. -/
def deriveLabelPath (p : String) : String :=
  (((p.replace ("images") ("labels")).replace (".png") (".txt")).replace
      (".jpg") (".txt")).replace ("JPEGImages") ("labels")

/-- `self.label_files`, the per-image derived label paths. -/
def ListDataset.label_files (ds : ListDataset) : List String :=
  ds.img_files.map deriveLabelPath

/-- `ListDataset.__getitem__`.  `jitter` stands for the external
ColorJitter pixel transform applied when `augment` is set; `flipCoin`
is the draw `np.random.random() < 0.5`.  Mirrors the source: index wraps
modulo the file count; the image is padded to a square; boxes are
remapped from the original frame to the padded frame; a missing label
file leaves `targets = None`; with augmentation the coin may invoke
`horisontal_flip` (which raises on `None` targets). -/
def ListDataset.getitem (ds : ListDataset) (fs : FS) (jitter : Image → Image)
    (flipCoin : Bool) (index : ℕ) :
    Except String (String × Image × Option (List TargetRow)) :=
  let n := ds.img_files.length
  if n = 0 then .error ("ZeroDivisionError: integer division or modulo by zero")
  else
    let img_path := (ds.img_files.getD (index % n) ("")).trimRight
    match fs.images img_path with
    | none => .error ("FileNotFoundError: " ++ img_path)
    | some decoded =>
      let img := if ds.augment then jitter decoded else decoded
      let h := Image.height img
      let w := Image.width img
      let h_factor : ℚ := if ds.normalized_labels then (h : ℚ) else 1
      let w_factor : ℚ := if ds.normalized_labels then (w : ℚ) else 1
      let pr := pad_to_square img 0
      let padded := pr.1
      let pad := pr.2
      let padded_h : ℚ := (Image.height padded : ℚ)
      let padded_w : ℚ := (Image.width padded : ℚ)
      let label_path := ((ds.label_files.getD (index % n) (""))).trimRight
      let targets : Option (List TargetRow) :=
        match fs.labels label_path with
        | none => none
        | some boxes => some (boxes.map (fun b =>
            let x1 := w_factor * (b.cx - b.bw / 2) + ((pad.getD 0 0 : ℕ) : ℚ)
            let y1 := h_factor * (b.cy - b.bh / 2) + ((pad.getD 2 0 : ℕ) : ℚ)
            let x2 := w_factor * (b.cx + b.bw / 2) + ((pad.getD 1 0 : ℕ) : ℚ)
            let y2 := h_factor * (b.cy + b.bh / 2) + ((pad.getD 3 0 : ℕ) : ℚ)
            { batchIndex := 0, cls := b.cls,
              cx := ((x1 + x2) / 2) / padded_w,
              cy := ((y1 + y2) / 2) / padded_h,
              w := b.bw * w_factor / padded_w,
              h := b.bh * h_factor / padded_h }))
      if ds.augment && flipCoin then
        match horisontal_flip padded targets with
        | .error e => .error e
        | .ok res => .ok (img_path, res.1, res.2)
      else .ok (img_path, padded, targets)

/-- The collator loop `for i, boxes in enumerate(targets): boxes[:, 0] = i`,
rendered with an explicit starting index: each surviving annotation set
has its column 0 overwritten with its position in the sequence. -/
def reindexFrom (k : ℕ) : List (List TargetRow) → List (List TargetRow)
  | [] => []
  | s :: rest =>
      s.map (fun r => { r with batchIndex := (k : ℚ) }) :: reindexFrom (k + 1) rest

/-- `ListDataset.collate_fn`.  `pick` is the oracle for
`random.choice(range(320, 608 + 1, 32))` (a 10-element set, indexed by
`pick % 10`).  Mirrors the source: unzip the batch, drop `None` targets,
overwrite column 0 with the position in the filtered list, concatenate
(`torch.cat` of an empty list raises and is caught, yielding `None`),
possibly redraw `img_size` when `multiscale` and `batch_count % 10 == 0`,
resize every image to the current `img_size`, bump the counter. -/
def ListDataset.collate_fn (ds : ListDataset) (pick : ℕ)
    (batch : List (String × Image × Option (List TargetRow))) :
    ListDataset × List String × List Image × Option (List TargetRow) :=
  let paths := batch.map (fun x => x.1)
  let imgsIn := batch.map (fun x => x.2.1)
  let filtered := (batch.map (fun x => x.2.2)).filterMap id
  let indexed := reindexFrom 0 filtered
  let targets : Option (List TargetRow) :=
    if indexed.isEmpty then none else some indexed.flatten
  let newSize :=
    if ds.multiscale && (ds.batch_count % 10 == 0)
    then 320 + 32 * (pick % 10) else ds.img_size
  let imgs := imgsIn.map (fun im => resize im newSize)
  ({ ds with img_size := newSize, batch_count := ds.batch_count + 1 },
   paths, imgs, targets)

/-- The fixed multiscale resolution set `range(320, 608 + 1, 32)`,
i.e. `{320, 352, ..., 608}`. -/
def multiscaleChoices : List ℕ := (List.range 10).map (fun k => 320 + 32 * k)

/-- The `ImageFolder` inference-only dataset: a sorted file list and the
configured resize target. -/
structure ImageFolder where
  files : List String
  img_size : ℕ

/-- `ImageFolder.__getitem__`: index wraps modulo the file count; decode,
pad to square, resize to `img_size`. -/
def ImageFolder.getitem (f : ImageFolder) (fs : FS) (index : ℕ) :
    Except String (String × Image) :=
  if f.files.length = 0 then
    .error ("ZeroDivisionError: integer division or modulo by zero")
  else
    let img_path := f.files.getD (index % f.files.length) ("")
    match fs.images img_path with
    | none => .error ("FileNotFoundError: " ++ img_path)
    | some img => .ok (img_path, resize (pad_to_square img 0).1 f.img_size)

end Yolo3

namespace Yolo3

/-! ## Shape lemmas for `F.pad` and `pad_to_square` -/

lemma Fpad_mem_shape (img : Image) (l r t b : ℕ) (v : ℚ) (hwf : WFImage img) :
    ∀ ch' ∈ Fpad img [l, r, t, b] v,
      ch'.length = t + Image.height img + b ∧
      ∀ row ∈ ch', row.length = l + Image.width img + r := by
  intro ch' hch'
  simp only [Fpad, List.getD_cons_zero, List.getD_cons_succ] at hch'
  obtain ⟨ch, hch, rfl⟩ := List.mem_map.1 hch'
  obtain ⟨hlen, hrows⟩ := hwf ch hch
  refine ⟨?_, ?_⟩
  · simp only [List.length_append, List.length_replicate, List.length_map, hlen]
  · intro row hrow
    rcases List.mem_append.1 hrow with hrow | hrow
    · rcases List.mem_append.1 hrow with hrow | hrow
      · rw [List.eq_of_mem_replicate hrow, List.length_replicate]
      · obtain ⟨row0, hr0, rfl⟩ := List.mem_map.1 hrow
        simp only [padRow, List.length_append, List.length_replicate, hrows row0 hr0]
    · rw [List.eq_of_mem_replicate hrow, List.length_replicate]

lemma Fpad_height (ch0 : List (List ℚ)) (rest : List (List (List ℚ)))
    (l r t b : ℕ) (v : ℚ) :
    Image.height (Fpad (ch0 :: rest) [l, r, t, b] v) = t + ch0.length + b := by
  simp only [Fpad, Image.height, List.getD_cons_zero, List.getD_cons_succ,
    List.map_cons, List.headD_cons, List.length_append, List.length_replicate,
    List.length_map]

lemma Fpad_width (ch0 : List (List ℚ)) (rest : List (List (List ℚ)))
    (l r t b : ℕ) (v : ℚ) (hwf : WFImage (ch0 :: rest))
    (hne : t + ch0.length + b ≠ 0) :
    Image.width (Fpad (ch0 :: rest) [l, r, t, b] v)
      = l + Image.width (ch0 :: rest) + r := by
  have hmem := Fpad_mem_shape (ch0 :: rest) l r t b v hwf
  have hX : Fpad (ch0 :: rest) [l, r, t, b] v ≠ [] := by
    simp [Fpad]
  obtain ⟨c, cs, hcs⟩ := List.exists_cons_of_ne_nil hX
  have hcmem : c ∈ Fpad (ch0 :: rest) [l, r, t, b] v := by
    rw [hcs]; exact List.mem_cons_self _ _
  obtain ⟨hclen, hcrows⟩ := hmem c hcmem
  have hh : Image.height (ch0 :: rest) = ch0.length := rfl
  have hcne : c ≠ [] := by
    intro h0
    rw [h0, hh] at hclen
    simp at hclen
    omega
  obtain ⟨row, rows, hrow⟩ := List.exists_cons_of_ne_nil hcne
  have hrmem : row ∈ c := by rw [hrow]; exact List.mem_cons_self _ _
  have hr := hcrows row hrmem
  simp [Image.width, hcs, hrow, hr]

end Yolo3

namespace Yolo3

/-- C5: for every well-formed image of height h and width w, `pad_to_square`
returns an image of height and width `max h w` (and still rectangular),
together with a padding descriptor `[left, right, top, bottom]` whose
deltas sum to `|h - w|` split as floor/ceil halves on a single axis pair
(top/bottom when `h ≤ w`, else left/right), with all four deltas zero
when `h = w` and exactly one axis pair nonzero when `h ≠ w`. -/
theorem pad_to_square_spec (img : Image) (v : ℚ) (hwf : WFImage img) :
    Image.height (pad_to_square img v).1
        = max (Image.height img) (Image.width img) ∧
    Image.width (pad_to_square img v).1
        = max (Image.height img) (Image.width img) ∧
    WFImage (pad_to_square img v).1 ∧
    ∃ l r t b, (pad_to_square img v).2 = [l, r, t, b] ∧
      l + r + t + b
        = max (Image.height img) (Image.width img)
            - min (Image.height img) (Image.width img) ∧
      (Image.height img ≤ Image.width img →
        l = 0 ∧ r = 0 ∧
        t = (Image.width img - Image.height img) / 2 ∧
        b = (Image.width img - Image.height img)
              - (Image.width img - Image.height img) / 2) ∧
      (Image.width img < Image.height img →
        t = 0 ∧ b = 0 ∧
        l = (Image.height img - Image.width img) / 2 ∧
        r = (Image.height img - Image.width img)
              - (Image.height img - Image.width img) / 2) ∧
      (Image.height img = Image.width img → l = 0 ∧ r = 0 ∧ t = 0 ∧ b = 0) ∧
      (Image.height img ≠ Image.width img →
        (l = 0 ∧ r = 0 ∧ t + b ≠ 0) ∨ (t = 0 ∧ b = 0 ∧ l + r ≠ 0)) := by
  cases img with
  | nil =>
      have h0 : Image.height ([] : Image) = 0 := rfl
      have w0 : Image.width ([] : Image) = 0 := rfl
      have hd0 : difference ([] : Image) = 0 := by simp [difference, h0, w0]
      have hps : pad_to_square ([] : Image) v = ([], [0, 0, 0, 0]) := by
        simp [pad_to_square, Fpad, hd0, h0, w0]
      refine ⟨?_, ?_, ?_, 0, 0, 0, 0, ?_, ?_, ?_, ?_, ?_, ?_⟩
      · simp [hps, h0, w0]
      · simp [hps, h0, w0]
      · simp [hps, WFImage]
      · simp [hps]
      · simp [h0, w0]
      · intro _; exact ⟨rfl, rfl, by simp [h0, w0], by simp [h0, w0]⟩
      · intro hlt; exact absurd hlt (by simp [h0, w0])
      · intro _; exact ⟨rfl, rfl, rfl, rfl⟩
      · intro hne; exact absurd (h0.trans w0.symm) hne
  | cons ch0 rest =>
      have hH : Image.height (ch0 :: rest) = ch0.length := rfl
      have hdd : difference (ch0 :: rest)
          = max (Image.height (ch0 :: rest)) (Image.width (ch0 :: rest))
              - min (Image.height (ch0 :: rest)) (Image.width (ch0 :: rest)) := rfl
      by_cases hle : Image.height (ch0 :: rest) ≤ Image.width (ch0 :: rest)
      · have hps : pad_to_square (ch0 :: rest) v
            = (Fpad (ch0 :: rest)
                [0, 0, difference (ch0 :: rest) / 2,
                  difference (ch0 :: rest) - difference (ch0 :: rest) / 2] v,
               [0, 0, difference (ch0 :: rest) / 2,
                  difference (ch0 :: rest) - difference (ch0 :: rest) / 2]) := by
          simp [pad_to_square, hle]
        have hht : Image.height (pad_to_square (ch0 :: rest) v).1
            = max (Image.height (ch0 :: rest)) (Image.width (ch0 :: rest)) := by
          rw [hps, Fpad_height]
          omega
        have hwt : Image.width (pad_to_square (ch0 :: rest) v).1
            = max (Image.height (ch0 :: rest)) (Image.width (ch0 :: rest)) := by
          by_cases hw0 : Image.width (ch0 :: rest) = 0
          · have hc0 : ch0 = [] := by
              refine List.length_eq_zero.1 ?_
              omega
            have hdz : difference (ch0 :: rest) = 0 := by omega
            subst hc0
            rw [hps, hdz]
            simp [Fpad, Image.width, hw0]
            omega
          · have hne : difference (ch0 :: rest) / 2 + ch0.length
                + (difference (ch0 :: rest) - difference (ch0 :: rest) / 2) ≠ 0 := by
              omega
            rw [hps, Fpad_width ch0 rest _ _ _ _ v hwf hne]
            omega
        refine ⟨hht, hwt, ?_, 0, 0, difference (ch0 :: rest) / 2,
          difference (ch0 :: rest) - difference (ch0 :: rest) / 2,
          ?_, ?_, ?_, ?_, ?_, ?_⟩
        · intro ch' hch'
          have hch2 : ch' ∈ Fpad (ch0 :: rest)
              [0, 0, difference (ch0 :: rest) / 2,
                difference (ch0 :: rest) - difference (ch0 :: rest) / 2] v := by
            rw [hps] at hch'; exact hch'
          obtain ⟨hl, hr⟩ := Fpad_mem_shape (ch0 :: rest) 0 0 _ _ v hwf ch' hch2
          constructor
          · rw [hht, hl]; omega
          · intro row hrow
            have hrl := hr row hrow
            rw [hwt, hrl]; omega
        · simp [hps]
        · omega
        · intro _; exact ⟨rfl, rfl, by omega, by omega⟩
        · intro hlt; exact absurd hle (by omega)
        · intro heq; exact ⟨rfl, rfl, by omega, by omega⟩
        · intro hne; exact Or.inl ⟨rfl, rfl, by omega⟩
      · have hlt : Image.width (ch0 :: rest) < Image.height (ch0 :: rest) := by omega
        have hps : pad_to_square (ch0 :: rest) v
            = (Fpad (ch0 :: rest)
                [difference (ch0 :: rest) / 2,
                  difference (ch0 :: rest) - difference (ch0 :: rest) / 2, 0, 0] v,
               [difference (ch0 :: rest) / 2,
                  difference (ch0 :: rest) - difference (ch0 :: rest) / 2, 0, 0]) := by
          simp [pad_to_square, hle]
        have hht : Image.height (pad_to_square (ch0 :: rest) v).1
            = max (Image.height (ch0 :: rest)) (Image.width (ch0 :: rest)) := by
          rw [hps, Fpad_height]
          omega
        have hwt : Image.width (pad_to_square (ch0 :: rest) v).1
            = max (Image.height (ch0 :: rest)) (Image.width (ch0 :: rest)) := by
          have hne : 0 + ch0.length + 0 ≠ 0 := by omega
          rw [hps, Fpad_width ch0 rest _ _ _ _ v hwf hne]
          omega
        refine ⟨hht, hwt, ?_, difference (ch0 :: rest) / 2,
          difference (ch0 :: rest) - difference (ch0 :: rest) / 2, 0, 0,
          ?_, ?_, ?_, ?_, ?_, ?_⟩
        · intro ch' hch'
          have hch2 : ch' ∈ Fpad (ch0 :: rest)
              [difference (ch0 :: rest) / 2,
                difference (ch0 :: rest) - difference (ch0 :: rest) / 2, 0, 0] v := by
            rw [hps] at hch'; exact hch'
          obtain ⟨hl, hr⟩ := Fpad_mem_shape (ch0 :: rest) _ _ 0 0 v hwf ch' hch2
          constructor
          · rw [hht, hl]; omega
          · intro row hrow
            have hrl := hr row hrow
            rw [hwt, hrl]; omega
        · simp [hps]
        · omega
        · intro h'; exact absurd h' (by omega)
        · intro _; exact ⟨rfl, rfl, by omega, by omega⟩
        · intro heq; exact absurd heq (by omega)
        · intro _; exact Or.inr ⟨rfl, rfl, by omega⟩

end Yolo3

namespace Yolo3

lemma torchFlipLast_involutive (img : Image) :
    torchFlipLast (torchFlipLast img) = img := by
  simp [torchFlipLast, List.map_map, Function.comp, List.reverse_reverse]

lemma flipTargetRow_involutive (r : TargetRow) :
    flipTargetRow (flipTargetRow r) = r := by
  simp [flipTargetRow]

/-- C8: for every image and every annotation set, one application of
`horisontal_flip` flips the image, rewrites each record's `center_x` to
`1 - center_x` and leaves `batch_index`, `class_id`, `center_y`, `width`
and `height` untouched; a second application returns exactly the original
image and the original annotation records. -/
theorem horisontal_flip_involution (img : Image) (rows : List TargetRow) :
    horisontal_flip img (some rows)
        = .ok (torchFlipLast img, some (rows.map flipTargetRow)) ∧
    (rows.map flipTargetRow).map (fun r => (r.batchIndex, r.cls, r.cy, r.w, r.h))
        = rows.map (fun r => (r.batchIndex, r.cls, r.cy, r.w, r.h)) ∧
    (rows.map flipTargetRow).map TargetRow.cx = rows.map (fun r => 1 - r.cx) ∧
    horisontal_flip (torchFlipLast img) (some (rows.map flipTargetRow))
        = .ok (img, some rows) := by
  refine ⟨rfl, ?_, ?_, ?_⟩
  · simp [List.map_map, Function.comp, flipTargetRow]
  · simp [List.map_map, Function.comp, flipTargetRow]
  · have hcomp : flipTargetRow ∘ flipTargetRow = id := funext flipTargetRow_involutive
    simp [horisontal_flip, List.map_map, torchFlipLast_involutive, hcomp]

/-- C10: for both `ListDataset` and `ImageFolder` with a nonempty file
list, `__getitem__ i` behaves exactly like `__getitem__ (i % N)` — the
file read is the one at list position `i % N`, so out-of-range indices
silently alias to in-range ones instead of raising. -/
theorem getitem_index_wraps (ds : ListDataset) (fo : ImageFolder) (fs : FS)
    (jitter : Image → Image) (flipCoin : Bool) (i : ℕ)
    (h1 : ds.img_files ≠ []) (h2 : fo.files ≠ []) :
    ds.getitem fs jitter flipCoin i
        = ds.getitem fs jitter flipCoin (i % ds.img_files.length) ∧
    fo.getitem fs i = fo.getitem fs (i % fo.files.length) ∧
    (∀ p im, fo.getitem fs i = .ok (p, im) →
      p = fo.files.getD (i % fo.files.length) ("")) := by
  refine ⟨?_, ?_, ?_⟩
  · simp only [ListDataset.getitem]
    rw [Nat.mod_mod_of_dvd i dvd_rfl]
  · simp only [ImageFolder.getitem]
    rw [Nat.mod_mod_of_dvd i dvd_rfl]
  · intro p im h
    have hn : fo.files.length ≠ 0 := fun h0 => h2 (List.length_eq_zero.1 h0)
    simp only [ImageFolder.getitem] at h
    rw [if_neg hn] at h
    cases hmi : fs.images (fo.files.getD (i % fo.files.length) ("")) with
    | none => rw [hmi] at h; simp at h
    | some im2 =>
        rw [hmi] at h
        simp only [Except.ok.injEq, Prod.mk.injEq] at h
        exact h.1.symm

lemma reindexFrom_length (k : ℕ) (sets : List (List TargetRow)) :
    (reindexFrom k sets).length = sets.length := by
  induction sets generalizing k with
  | nil => rfl
  | cons s rest ih => simp [reindexFrom, ih]

lemma reindexFrom_eq_nil (k : ℕ) (sets : List (List TargetRow)) :
    reindexFrom k sets = [] ↔ sets = [] := by
  cases sets <;> simp [reindexFrom]

lemma reindexFrom_mem (sets : List (List TargetRow)) (k i : ℕ)
    (hi : i < sets.length) (r : TargetRow) (hr : r ∈ sets.get ⟨i, hi⟩) :
    { r with batchIndex := ((k + i : ℕ) : ℚ) }
      ∈ (reindexFrom k sets).flatten := by
  induction sets generalizing k i with
  | nil => exact absurd hi (by simp)
  | cons s rest ih =>
      cases i with
      | zero =>
          simp only [reindexFrom, List.flatten_cons, List.mem_append]
          exact Or.inl (List.mem_map.2 ⟨r, by simpa using hr, by simp⟩)
      | succ j =>
          have hj : j < rest.length := by simpa using hi
          have := ih (k + 1) j hj (by simpa using hr)
          simp only [reindexFrom, List.flatten_cons, List.mem_append]
          refine Or.inr ?_
          have harith : k + 1 + j = k + (j + 1) := by omega
          rw [harith] at this
          exact this

/-- C1 (amended): after dropping the `None` markers, `collate_fn`
overwrites every record's `batch_index` with its set's position `i` in
the filtered sequence, so the indices are contiguous `0..K-1` over the
surviving (non-`None`) annotation sets — which coincide with the images
that contributed at least one box only when no surviving set is empty —
not the images' positions in the original batch ordering. -/
theorem collate_assigns_filtered_position (ds : ListDataset) (pick : ℕ)
    (batch : List (String × Image × Option (List TargetRow))) :
    ((batch.map (fun x => x.2.2)).filterMap id = [] →
      (ds.collate_fn pick batch).2.2.2 = none) ∧
    ((batch.map (fun x => x.2.2)).filterMap id ≠ [] →
      (ds.collate_fn pick batch).2.2.2
        = some (reindexFrom 0 ((batch.map (fun x => x.2.2)).filterMap id)).flatten ∧
      ∀ i, ∀ hi : i < ((batch.map (fun x => x.2.2)).filterMap id).length,
        ∀ r ∈ ((batch.map (fun x => x.2.2)).filterMap id).get ⟨i, hi⟩,
          { r with batchIndex := ((i : ℕ) : ℚ) }
            ∈ (reindexFrom 0 ((batch.map (fun x => x.2.2)).filterMap id)).flatten) := by
  constructor
  · intro h
    simp [ListDataset.collate_fn, h, reindexFrom]
  · intro h
    constructor
    · have hne : (reindexFrom 0 ((batch.map (fun x => x.2.2)).filterMap id)).isEmpty = false := by
        cases hcase : (batch.map (fun x => x.2.2)).filterMap id with
        | nil => exact absurd hcase h
        | cons a l => simp [reindexFrom]
      have hdef : (ds.collate_fn pick batch).2.2.2
          = if (reindexFrom 0 ((batch.map (fun x => x.2.2)).filterMap id)).isEmpty
            then none
            else some (reindexFrom 0 ((batch.map (fun x => x.2.2)).filterMap id)).flatten := rfl
      rw [hdef, hne]
      simp
    · intro i hi r hr
      have := reindexFrom_mem _ 0 i hi r hr
      simpa using this

/-- C9: when every item of the batch carries the `None` marker,
`collate_fn` does not fail: the caught `torch.cat` error makes the
annotation output the explicit `None` marker and the images are still
all stacked (one resized image per batch item). -/
theorem collate_all_none_targets (ds : ListDataset) (pick : ℕ)
    (batch : List (String × Image × Option (List TargetRow)))
    (hall : ∀ x ∈ batch, x.2.2 = (none : Option (List TargetRow))) :
    (ds.collate_fn pick batch).2.2.2 = none ∧
    (ds.collate_fn pick batch).2.2.1.length = batch.length := by
  have hf : (batch.map (fun x => x.2.2)).filterMap id = [] := by
    rw [List.filterMap_eq_nil_iff]
    intro a ha
    obtain ⟨x, hx, rfl⟩ := List.mem_map.1 ha
    exact hall x hx
  constructor
  · simp [ListDataset.collate_fn, hf, reindexFrom]
  · simp [ListDataset.collate_fn]

/-- C6: with multiscale enabled, each `collate_fn` call increments the
batch counter by one; a new resolution `320 + 32·(pick % 10)` — an
element of `{320, 352, ..., 608}` — is drawn exactly on calls where the
counter is `≡ 0 (mod 10)`, the previous resolution is reused otherwise,
and a freshly constructed dataset starts with the configured default
`img_size` and counter 0 (so the first draw happens on the first call). -/
theorem collate_multiscale_schedule (files : List String) (sz : ℕ)
    (a nl : Bool) (ds : ListDataset) (pick : ℕ)
    (batch : List (String × Image × Option (List TargetRow)))
    (hm : ds.multiscale = true) :
    (ListDataset.init files sz a true nl).img_size = sz ∧
    (ListDataset.init files sz a true nl).batch_count = 0 ∧
    (ds.collate_fn pick batch).1.batch_count = ds.batch_count + 1 ∧
    (ds.batch_count % 10 = 0 →
      (ds.collate_fn pick batch).1.img_size = 320 + 32 * (pick % 10) ∧
      (ds.collate_fn pick batch).1.img_size ∈ multiscaleChoices) ∧
    (ds.batch_count % 10 ≠ 0 →
      (ds.collate_fn pick batch).1.img_size = ds.img_size) := by
  refine ⟨rfl, rfl, ?_, ?_, ?_⟩
  · simp [ListDataset.collate_fn]
  · intro h0
    have hcond : (ds.multiscale && (ds.batch_count % 10 == 0)) = true := by
      simp [hm, h0]
    constructor
    · simp [ListDataset.collate_fn, hcond]
    · simp only [ListDataset.collate_fn, hcond, if_true, multiscaleChoices,
        List.mem_map]
      exact ⟨pick % 10, by simp [List.mem_range, Nat.mod_lt]⟩
  · intro h0
    have hcond : (ds.multiscale && (ds.batch_count % 10 == 0)) = false := by
      simp [h0]
    simp [ListDataset.collate_fn, hcond]

lemma resize_shape (img : Image) (s : ℕ) (h : img ≠ []) :
    Image.channels (resize img s) = Image.channels img ∧
    Image.height (resize img s) = s ∧ Image.width (resize img s) = s := by
  obtain ⟨ch, rest, rfl⟩ := List.exists_cons_of_ne_nil h
  refine ⟨by simp [resize, Image.channels], ?_, ?_⟩
  · simp [resize, Image.height]
  · cases s with
    | zero => simp [resize, Image.width]
    | succ m => simp [resize, Image.width, List.range_succ_eq_map]

/-- C7: within a single `collate_fn` call one resolution `S` (the
dataset's updated `img_size`) is used to resize every image of the
batch, so the stacked output is a full-batch-length list of images each
of shape `C × S × S`; the resolution can only change between calls. -/
theorem collate_uniform_resolution (ds : ListDataset) (pick : ℕ)
    (batch : List (String × Image × Option (List TargetRow))) (c : ℕ)
    (hc : ∀ x ∈ batch, Image.channels x.2.1 = c) (hc0 : c ≠ 0) :
    (ds.collate_fn pick batch).2.2.1.length = batch.length ∧
    ∀ im ∈ (ds.collate_fn pick batch).2.2.1,
      Image.channels im = c ∧
      Image.height im = (ds.collate_fn pick batch).1.img_size ∧
      Image.width im = (ds.collate_fn pick batch).1.img_size := by
  constructor
  · simp [ListDataset.collate_fn]
  · intro im him
    simp only [ListDataset.collate_fn, List.map_map, List.mem_map,
      Function.comp] at him
    obtain ⟨x, hx, rfl⟩ := him
    have hcx := hc x hx
    have hne : x.2.1 ≠ [] := by
      intro hnil
      rw [hnil] at hcx
      exact hc0 (by simpa [Image.channels] using hcx.symm)
    obtain ⟨hch, hhh, hww⟩ := resize_shape x.2.1 _ hne
    exact ⟨by rw [hch]; exact hcx, hhh, hww⟩

end Yolo3

namespace Yolo3

/-! ## Concrete data for evaluations and witnesses -/

/-- A 1-channel 1×1 image. -/
def tinyImg : Image := [[[0]]]

/-- A 1-channel 3×2 image (height 3, width 2). -/
def imgW : Image := [[[1, 2], [3, 4], [5, 6]]]

/-- A sample annotation row. -/
def rowA : TargetRow := ⟨0, 3, 7, 9, 2, 5⟩

/-- Another sample annotation row. -/
def rowB : TargetRow := ⟨0, 4, 8, 6, 2, 3⟩

/-- A dataset with no augmentation and no multiscale. -/
def dsPlain : ListDataset := ⟨["a.jpg"], 1, false, false, true, 0⟩

/-- A multiscale-enabled dataset. -/
def dsMulti : ListDataset := ⟨["a.jpg"], 416, false, true, true, 0⟩

/-- An augmenting dataset (ColorJitter + flip coin active). -/
def dsAug : ListDataset := ⟨["images/m.jpg"], 1, true, false, true, 0⟩

/-- A non-augmenting dataset used for the zero-row-label scenario. -/
def dsE3 : ListDataset := ⟨["images/e.jpg"], 1, false, false, true, 0⟩

/-- A file system where every image decodes to `tinyImg` and no label file
exists. -/
def fsTiny : FS := ⟨fun _ => some tinyImg, fun _ => none⟩

/-- A file system where every label file exists but has zero rows. -/
def fsEmptyLab : FS := ⟨fun _ => some tinyImg, fun _ => some []⟩

/-- A two-file inference folder. -/
def folderW : ImageFolder := ⟨["a.jpg", "b.jpg"], 2⟩

/-- The 3-channel 50×100 image of the end-to-end example (height 50,
width 100). -/
def img4 : Image := List.replicate 3 (List.replicate 50 (List.replicate 100 (0 : ℚ)))

/-- Dataset for the end-to-end example. -/
def ds4 : ListDataset := ⟨["images/ex.jpg"], 416, false, false, true, 0⟩

/-- File system for the end-to-end example: the single label
`0 0.5 0.5 0.2 0.4`. -/
def fs4 : FS := ⟨fun _ => some img4, fun _ => some [⟨0, 1/2, 1/2, 1/5, 2/5⟩]⟩

/-- A batch whose first item has a zero-row annotation set. -/
def batchC1 : List (String × Image × Option (List TargetRow)) :=
  [("a", tinyImg, some []), ("b", tinyImg, some [rowA])]

/-- A batch whose first item has a zero-row annotation set (C3 variant). -/
def batchC3 : List (String × Image × Option (List TargetRow)) :=
  [("a", tinyImg, some []), ("b", tinyImg, some [rowB])]

/-- A batch mixing an annotated item and a `None`-marker item. -/
def batchW : List (String × Image × Option (List TargetRow)) :=
  [("a", tinyImg, some [rowA]), ("b", tinyImg, none)]

/-- A batch where every item carries the `None` marker. -/
def batchN : List (String × Image × Option (List TargetRow)) :=
  [("a", tinyImg, none), ("b", tinyImg, none)]

/-- C2 (evaluation at the failing input): with `augment = True` and the
flip coin firing, an item whose derived label file is missing makes
`__getitem__` raise inside `horisontal_flip` (`targets` is `None`);
with the coin not firing the same item loads fine and carries the `None`
marker. -/
theorem missing_label_with_flip_raises :
    dsAug.getitem fsTiny id true 0
        = .error ("TypeError: NoneType object is not subscriptable") ∧
    (dsAug.getitem fsTiny id false 0).map (fun o => o.2.2) = .ok none :=
  ⟨rfl, rfl⟩

/-- C3 counterexample: a label file that exists with zero rows yields
`some []` (an empty annotation tensor), not the `None` marker a missing
file yields, and the collator does **not** filter it — it occupies
position 0 of the filtered sequence, pushing the real annotation set to
`batch_index` 1. -/
theorem zero_row_label_not_marker_cex :
    (dsE3.getitem fsEmptyLab id false 0).map (fun o => o.2.2) = .ok (some []) ∧
    (dsE3.getitem fsTiny id false 0).map (fun o => o.2.2) = .ok none ∧
    some ([] : List TargetRow) ≠ (none : Option (List TargetRow)) ∧
    (dsPlain.collate_fn 0 batchC3).2.2.2
        = some [{ rowB with batchIndex := (1 : ℚ) }] :=
  ⟨rfl, rfl, by simp, rfl⟩

/-- C3 (amended): an existing zero-row label file produces the empty
annotation tensor `some []`; the collator filters only `None`, so a
leading zero-row set survives, takes position 0 in the `batch_index`
numbering, and contributes no rows — the remaining sets are renumbered
from 1. -/
theorem zero_row_labels_survive (ds : ListDataset) (fs : FS)
    (jitter : Image → Image) (i pick : ℕ) (p : String) (im : Image)
    (restBatch : List (String × Image × Option (List TargetRow)))
    (hn : ds.img_files.length ≠ 0) (haug : ds.augment = false)
    (hlab : fs.labels ((ds.label_files.getD (i % ds.img_files.length) ("")).trimRight)
        = some [])
    (himg : ∃ im0, fs.images
        ((ds.img_files.getD (i % ds.img_files.length) ("")).trimRight) = some im0) :
    (ds.getitem fs jitter false i).map (fun o => o.2.2) = .ok (some []) ∧
    (ds.collate_fn pick ((p, im, some ([] : List TargetRow)) :: restBatch)).2.2.2
        = some (reindexFrom 1 ((restBatch.map (fun x => x.2.2)).filterMap id)).flatten := by
  constructor
  · obtain ⟨im0, him0⟩ := himg
    simp only [ListDataset.getitem]
    rw [if_neg hn, him0, hlab]
    simp [haug]
    rfl
  · simp [ListDataset.collate_fn, reindexFrom]

/-- Witness for `zero_row_labels_survive` at a concrete dataset, file
system and batch. -/
theorem zero_row_labels_survive_witness :
    (dsE3.getitem fsEmptyLab id false 0).map (fun o => o.2.2) = .ok (some []) ∧
    (dsE3.collate_fn 0 (("x", tinyImg, some ([] : List TargetRow))
        :: [("y", tinyImg, some [rowB])])).2.2.2
      = some (reindexFrom 1
          (([("y", tinyImg, some [rowB])].map (fun x => x.2.2)).filterMap id)).flatten :=
  zero_row_labels_survive dsE3 fsEmptyLab id 0 0 ("x") tinyImg
    [("y", tinyImg, some [rowB])] (by decide) rfl rfl ⟨tinyImg, rfl⟩

/-- C4: the end-to-end example — a 100-wide, 50-high image with the single
normalized label `0 0.5 0.5 0.2 0.4` is padded by 25 rows top and bottom
to a 100×100 frame, and the remapped box keeps center `(1/2, 1/2)` and
width `1/5` while its height rescales to `2/5 · 50/100 = 1/5`. -/
theorem pad_then_remap_100x50_example :
    (pad_to_square img4 0).2 = [0, 0, 25, 25] ∧
    Image.height (pad_to_square img4 0).1 = 100 ∧
    Image.width (pad_to_square img4 0).1 = 100 ∧
    (ds4.getitem fs4 id false 0).map (fun o => o.2.2)
        = .ok (some [⟨0, 0, 1/2, 1/2, 1/5, 1/5⟩]) := by
  have h1 : Image.height img4 = 50 := by decide
  have h2 : Image.width img4 = 100 := by decide
  have hp2 : (pad_to_square img4 0).2 = [0, 0, 25, 25] := by decide
  have hh : Image.height (pad_to_square img4 0).1 = 100 := by decide
  have hw : Image.width (pad_to_square img4 0).1 = 100 := by decide
  refine ⟨hp2, hh, hw, ?_⟩
  simp only [ListDataset.getitem, ListDataset.label_files, ds4, fs4]
  norm_num [h1, h2, hp2, hh, hw, TargetRow.mk.injEq]
  rfl

/-- C1 counterexample: in `batchC1` exactly one image contributed at
least one box, yet its records receive `batch_index` 1 (its position
among the surviving annotation sets, whose position 0 is taken by a
zero-row set), so the `batch_index` values are not contiguous `0..K-1`
over the images that contributed at least one box. -/
theorem batch_index_not_box_contiguous_cex :
    ((batchC1.map (fun x => x.2.2)).filterMap id).countP (fun s => !s.isEmpty) = 1 ∧
    (dsPlain.collate_fn 0 batchC1).2.2.2
        = some [{ rowA with batchIndex := (1 : ℚ) }] :=
  ⟨by decide, rfl⟩

/-- Witness for `collate_assigns_filtered_position` at a concrete batch. -/
theorem collate_assigns_filtered_position_witness :
    (dsPlain.collate_fn 0 batchC1).2.2.2
        = some (reindexFrom 0 ((batchC1.map (fun x => x.2.2)).filterMap id)).flatten ∧
    { rowA with batchIndex := ((1 : ℕ) : ℚ) }
        ∈ (reindexFrom 0 ((batchC1.map (fun x => x.2.2)).filterMap id)).flatten := by
  have h := (collate_assigns_filtered_position dsPlain 0 batchC1).2 (by decide)
  refine ⟨h.1, ?_⟩
  exact h.2 1 (by decide) rowA (by decide)

/-- Witness for `pad_to_square_spec` at the concrete 3×2 image `imgW`. -/
theorem pad_to_square_spec_witness :
    WFImage imgW ∧
    (Image.height (pad_to_square imgW 0).1
        = max (Image.height imgW) (Image.width imgW) ∧
    Image.width (pad_to_square imgW 0).1
        = max (Image.height imgW) (Image.width imgW) ∧
    WFImage (pad_to_square imgW 0).1 ∧
    ∃ l r t b, (pad_to_square imgW 0).2 = [l, r, t, b] ∧
      l + r + t + b
        = max (Image.height imgW) (Image.width imgW)
            - min (Image.height imgW) (Image.width imgW) ∧
      (Image.height imgW ≤ Image.width imgW →
        l = 0 ∧ r = 0 ∧
        t = (Image.width imgW - Image.height imgW) / 2 ∧
        b = (Image.width imgW - Image.height imgW)
              - (Image.width imgW - Image.height imgW) / 2) ∧
      (Image.width imgW < Image.height imgW →
        t = 0 ∧ b = 0 ∧
        l = (Image.height imgW - Image.width imgW) / 2 ∧
        r = (Image.height imgW - Image.width imgW)
              - (Image.height imgW - Image.width imgW) / 2) ∧
      (Image.height imgW = Image.width imgW → l = 0 ∧ r = 0 ∧ t = 0 ∧ b = 0) ∧
      (Image.height imgW ≠ Image.width imgW →
        (l = 0 ∧ r = 0 ∧ t + b ≠ 0) ∨ (t = 0 ∧ b = 0 ∧ l + r ≠ 0))) :=
  ⟨by decide, pad_to_square_spec imgW 0 (by decide)⟩

/-- Witness for `collate_multiscale_schedule` at a concrete dataset. -/
theorem collate_multiscale_schedule_witness :
    (ListDataset.init ["a.jpg"] 416 false true true).img_size = 416 ∧
    (dsMulti.collate_fn 7 []).1.batch_count = dsMulti.batch_count + 1 ∧
    (dsMulti.collate_fn 7 []).1.img_size = 320 + 32 * (7 % 10) ∧
    (dsMulti.collate_fn 7 []).1.img_size ∈ multiscaleChoices := by
  have h := collate_multiscale_schedule ["a.jpg"] 416 false true dsMulti 7 [] rfl
  exact ⟨h.1, h.2.2.1, (h.2.2.2.1 rfl).1, (h.2.2.2.1 rfl).2⟩

/-- Witness for `collate_uniform_resolution` at a concrete batch. -/
theorem collate_uniform_resolution_witness :
    (dsPlain.collate_fn 0 batchW).2.2.1.length = batchW.length ∧
    Image.channels ((dsPlain.collate_fn 0 batchW).2.2.1.headD []) = 1 ∧
    Image.height ((dsPlain.collate_fn 0 batchW).2.2.1.headD [])
        = (dsPlain.collate_fn 0 batchW).1.img_size := by
  have h := collate_uniform_resolution dsPlain 0 batchW 1 (by decide) (by decide)
  refine ⟨h.1, ?_, ?_⟩
  · exact (h.2 _ (by decide)).1
  · exact (h.2 _ (by decide)).2.1

/-- Witness for `collate_all_none_targets` at a concrete batch. -/
theorem collate_all_none_targets_witness :
    (dsPlain.collate_fn 0 batchN).2.2.2 = none ∧
    (dsPlain.collate_fn 0 batchN).2.2.1.length = batchN.length :=
  collate_all_none_targets dsPlain 0 batchN (by decide)

/-- Witness for `getitem_index_wraps` at concrete datasets and index 5. -/
theorem getitem_index_wraps_witness :
    dsPlain.getitem fsTiny id false 5
        = dsPlain.getitem fsTiny id false (5 % dsPlain.img_files.length) ∧
    folderW.getitem fsTiny 5 = folderW.getitem fsTiny (5 % folderW.files.length) := by
  have h := getitem_index_wraps dsPlain folderW fsTiny id false 5 (by decide) (by decide)
  exact ⟨h.1, h.2.1⟩

end Yolo3
